import Mathlib

/-!
A verification development for the blog server's document-loading core
(src/post.rs, src/errors.rs, src/routes.rs).  Rust strings are embedded as
Lean `String` (a wrapper around `List Char`), the string primitives used by
the source (`strip_suffix`, `starts_with`, `splitn`, `split_once`, `lines`,
`trim`) are defined over character lists with the same semantics, and
`Post::from_file` is embedded as a function returning an `Outcome` whose
`panic` constructor records a Rust panic (an `unwrap` of `None`).
File-system reads and the markdown converter are parameters, since both are
external to the repository's code.
-/

/-- The kind of an I/O error, as distinguished by `std::io::ErrorKind` in the
source: `NotFound` for a missing file, `other` for every other I/O failure. -/
inductive IOErrorKind
  | notFound
  | other
  deriving DecidableEq

/-- The result of running `Post::from_file`: a document, an I/O error
propagated with `?`, or a Rust panic (an `unwrap` on `None`), which aborts
the task instead of returning a value. -/
inductive Outcome (α : Type)
  | ok (a : α)
  | err (k : IOErrorKind)
  | panic
  deriving DecidableEq

/-- The `Post` struct of src/post.rs with its five string fields. -/
@[ext]
structure Post where
  slug : String
  url : String
  title : String
  description : String
  content : String
  deriving DecidableEq

/-- `Post::new()` uses `Default`, so every field starts as the empty string. -/
def Post.new : Post := ⟨"", "", "", "", ""⟩

/-- ASCII whitespace, the fragment of Rust's `char::is_whitespace` that the
repository's inputs exercise. -/
def isWS (c : Char) : Bool := c == ' ' || c == '\t' || c == '\n' || c == '\r'

/-- Drop whitespace from both ends of a character list. -/
def trimChars (cs : List Char) : List Char :=
  ((cs.dropWhile isWS).reverse.dropWhile isWS).reverse

/-- Rust's `str::trim` (restricted to ASCII whitespace). -/
def rustTrim (s : String) : String := ⟨trimChars s.data⟩

/-- Rust's `str::starts_with` for a string pattern. -/
def starts_with (s pat : String) : Bool := pat.data.isPrefixOf s.data

/-- Rust's `str::ends_with` for a string pattern. -/
def ends_with (s pat : String) : Bool := pat.data.isSuffixOf s.data

/-- Rust's `str::strip_suffix`: `some` of the prefix when the suffix matches,
`none` otherwise. -/
def strip_suffix (s pat : String) : Option String :=
  if ends_with s pat then some ⟨s.data.take (s.data.length - pat.data.length)⟩
  else none

/-- Split a character list at the first occurrence of the character `c`. -/
def splitOnceChars (c : Char) : List Char → Option (List Char × List Char)
  | [] => none
  | x :: xs =>
    if x == c then some ([], xs)
    else (splitOnceChars c xs).map (fun p => (x :: p.1, p.2))

/-- Rust's `str::split_once` with a single-character pattern (the source
splits each front-matter line once on `":"`). -/
def split_once (c : Char) (s : String) : Option (String × String) :=
  (splitOnceChars c s.data).map (fun p => (⟨p.1⟩, ⟨p.2⟩))

/-- Index of the first occurrence of `pat` in a character list, scanning left
to right. -/
def findSub (pat : List Char) : List Char → Option Nat
  | [] => if pat.isPrefixOf ([] : List Char) then some 0 else none
  | c :: cs =>
    if pat.isPrefixOf (c :: cs) then some 0
    else (findSub pat cs).map (· + 1)

/-- Substring test, used to state properties about delimiter occurrences. -/
def containsSub (s pat : String) : Bool := (findSub pat.data s.data).isSome

/-- Rust's `str::splitn(n, pat)` on character lists: at most `n` pieces, the
splitter consuming the first `n - 1` non-overlapping occurrences of `pat`
left to right, and the final piece carrying the unsplit remainder. -/
def splitnChars : Nat → List Char → List Char → List (List Char)
  | 0, _, _ => []
  | 1, _, s => [s]
  | n + 2, pat, s =>
    match findSub pat s with
    | none => [s]
    | some i => s.take i :: splitnChars (n + 1) pat (s.drop (i + pat.length))

/-- Rust's `str::splitn` on strings. -/
def splitn (n : Nat) (pat s : String) : List String :=
  (splitnChars n pat.data s.data).map (fun l => ⟨l⟩)

/-- Split a character list on every occurrence of the character `c`. -/
def splitChar (c : Char) : List Char → List (List Char)
  | [] => [[]]
  | x :: xs =>
    if x == c then [] :: splitChar c xs
    else
      match splitChar c xs with
      | [] => [[x]]
      | l :: ls => (x :: l) :: ls

/-- Rust's `str::lines`: split-terminator semantics on `'\n'` with a trailing
`'\r'` stripped from each line. -/
def rustLines (s : String) : List String :=
  if s.data.isEmpty then []
  else
    let parts := splitChar '\n' s.data
    let parts := if ends_with s "\n" then parts.dropLast else parts
    parts.map (fun l =>
      (⟨if l.getLast? == some '\r' then l.dropLast else l⟩ : String))

/-- The body of the `for line in vars.lines()` loop of src/post.rs lines
39-48: split the line once on `':'` (`unwrap` of `None`, a panic, is `none`),
trim the value and assign it to the field matching the key, leaving the post
unchanged for unrecognized keys. -/
def applyVar (p : Post) (line : String) : Option Post :=
  match split_once ':' line with
  | none => none
  | some kv =>
    let v := rustTrim kv.2
    some (if kv.1 = "title" then { p with title := v }
          else if kv.1 = "description" then { p with description := v }
          else if kv.1 = "slug" then { p with slug := v }
          else p)

/-- The whole front-matter loop: apply `applyVar` to each line in order; a
panic on any line aborts the loop (and the request task). -/
def applyVars : Post → List String → Option Post
  | p, [] => some p
  | p, line :: rest =>
    match applyVar p line with
    | none => none
    | some q => applyVars q rest

/-- The key of a front-matter line: the text before the first colon, when a
colon exists. -/
def keyOf (line : String) : Option String := (split_once ':' line).map Prod.fst

/-- One step of the last-value scan: on a line whose key is `key`, replace
the accumulator with the trimmed value; otherwise keep it. -/
def lvStep (key : String) (acc : Option String) (line : String) : Option String :=
  match split_once ':' line with
  | some kv => if kv.1 = key then some (rustTrim kv.2) else acc
  | none => acc

/-- Accumulator form of `lastValue`: scan the lines left to right, keeping
the trimmed value of the most recent line whose key is `key`. -/
def lastValueAux (key : String) (acc : Option String) : List String → Option String
  | [] => acc
  | line :: rest => lastValueAux key (lvStep key acc line) rest

/-- The trimmed value of the last line whose key is `key`, when one exists. -/
def lastValue (key : String) (ls : List String) : Option String :=
  lastValueAux key none ls

/-- Modelled from the spec: one line of the pulldown_cmark markdown-to-HTML
conversion (an external library crate, not code of this repository), reduced
to the constructs the claims exercise: ATX `#`/`##` headings and paragraphs. -/
def mdLine (l : String) : String :=
  if starts_with l "# " then "<h1>" ++ (⟨l.data.drop 2⟩ : String) ++ "</h1>\n"
  else if starts_with l "## " then "<h2>" ++ (⟨l.data.drop 3⟩ : String) ++ "</h2>\n"
  else if l.data.isEmpty then ""
  else "<p>" ++ l ++ "</p>\n"

/-- Modelled from the spec: the pulldown_cmark markdown-to-HTML conversion
(an external library crate, not code of this repository), line by line. -/
def md_to_html (s : String) : String := String.join ((rustLines s).map mdLine)

/-- `Post::from_file` of src/post.rs lines 21-63.  `md2html` abstracts the
pulldown_cmark conversion and `fs` abstracts the file system (`File::open`
plus `read_to_string`, whose errors propagate via `?`).  The four `unwrap`
calls of the source are the `Outcome.panic` branches: the suffix strip on
line 24, the two `pop_front` calls on lines 35-36, and the `split_once`
inside `applyVar`. -/
def Post.from_file (md2html : String → String)
    (fs : String → Except IOErrorKind String) (path : String) : Outcome Post :=
  match strip_suffix path ".md" with
  | none => Outcome.panic
  | some url =>
    match fs path with
    | Except.error k => Outcome.err k
    | Except.ok buf =>
      let post : Post := { Post.new with url := url, content := buf }
      if starts_with post.content "---\n" then
        match (splitn 3 "---\n" post.content).drop 1 with
        | [] => Outcome.panic
        | [_] => Outcome.panic
        | vars :: content :: _ =>
          match applyVars post (rustLines vars) with
          | none => Outcome.panic
          | some post2 => Outcome.ok { post2 with content := md2html content }
      else Outcome.ok { post with content := md2html post.content }

/-- An HTTP response as the error middleware sees it: a status, the error the
handler attached (if any, available to `downcast_error`), and a body. -/
structure Response where
  status : Nat
  error : Option IOErrorKind
  body : String
  deriving DecidableEq

/-- Modelled from the spec: the `post.html` handlebars template (under
client/dist, not part of src/), which interpolates the `content` field of the
payload into the page. -/
def render_post_html (content : String) : String :=
  "<html><body>" ++ content ++ "</body></html>"

/-- Modelled from the spec: the canonical reason phrases of the http-types
crate (external), for the statuses this server produces. -/
def canonical_reason (status : Nat) : String :=
  if status == 200 then "OK"
  else if status == 404 then "Not Found"
  else if status == 500 then "Internal Server Error"
  else ""

/-- `StatusCode::is_success`: the 2xx range. -/
def is_success (status : Nat) : Bool := 200 ≤ status && status ≤ 299

/-- `error_handler` of src/errors.rs: when the response carries an I/O error
of kind `NotFound`, set status 404; then, for any non-success status, replace
the body with the `post.html` template rendered over the payload
`{ content: "<status> <canonical-reason>" }`. -/
def error_handler (res : Response) : Response :=
  let res1 :=
    match res.error with
    | some IOErrorKind.notFound => { res with status := 404 }
    | _ => res
  if is_success res1.status then res1
  else { res1 with
         body := render_post_html (toString res1.status ++ " "
                   ++ canonical_reason res1.status) }

/-- `render_markdown` of src/routes.rs: load the post and render it through
`post.html` with status 200.  The error branch is modelled from the spec: the
tide framework (external) turns a handler `Err` into a 500 response carrying
the error for the `After` middleware to inspect; a panic produces no response
at all (`none`). -/
def render_markdown (md2html : String → String)
    (fs : String → Except IOErrorKind String) (path : String) : Option Response :=
  match Post.from_file md2html fs path with
  | Outcome.ok p => some { status := 200, error := none,
                           body := render_post_html p.content }
  | Outcome.err k => some { status := 500, error := some k, body := "" }
  | Outcome.panic => none

/-- The end-to-end pipeline of main.rs: the route handler followed by the
`After(error_handler)` middleware. -/
def handle (md2html : String → String)
    (fs : String → Except IOErrorKind String) (path : String) : Option Response :=
  (render_markdown md2html fs path).map error_handler

/-- The front-matter delimiter `"---\n"` as a character list. -/
def fmDelim : List Char := ['-', '-', '-', '\n']

/-- A file system on which every open fails with `NotFound`. -/
def fsNF : String → Except IOErrorKind String :=
  fun _ => Except.error IOErrorKind.notFound

/-- A file whose front matter opens but never closes: the delimiter occurs
only once. -/
def fsC1 : String → Except IOErrorKind String :=
  fun _ => Except.ok "---\ntitle: x\n"

/-- A file whose front-matter block holds a line without a colon. -/
def fsC2 : String → Except IOErrorKind String :=
  fun _ => Except.ok "---\njustcontent\n---\nBody"

/-- A file without the front-matter prefix. -/
def fsC4 : String → Except IOErrorKind String :=
  fun _ => Except.ok "# Hi\nplain body"

/-- The file of the spec's worked example. -/
def fsC5 : String → Except IOErrorKind String :=
  fun _ => Except.ok "---\ntitle: Hello\n---\n# Body\n"

/-- A plain one-word file, used to exercise the url derivation. -/
def fsC6 : String → Except IOErrorKind String :=
  fun _ => Except.ok "hi"

/-- The document the loader produces from `fsC6` at the spec's example path. -/
def pC6 : Post := ⟨"", "posts/2024/01/01/hello", "", "", md_to_html "hi"⟩

/-- A file whose body holds two further delimiter occurrences after the two
that close the front matter. -/
def fsC8 : String → Except IOErrorKind String :=
  fun _ => Except.ok ("---\n" ++ "title: t\n" ++ ("---\n" ++ "X\n---\nY\n"))

/-- A front-matter block with a blank line between two entries. -/
def fsC9a : String → Except IOErrorKind String :=
  fun _ => Except.ok "---\ntitle: A\n\ndescription: B\n---\nBody"

/-- The same front-matter block without the blank line. -/
def fsC9b : String → Except IOErrorKind String :=
  fun _ => Except.ok "---\ntitle: A\ndescription: B\n---\nBody"

theorem string_mk_data (s : String) : (⟨s.data⟩ : String) = s := rfl

theorem string_mk_append (a b : List Char) :
    (⟨a⟩ : String) ++ (⟨b⟩ : String) = ⟨a ++ b⟩ := rfl

theorem fmDelim_data : "---\n".data = fmDelim := rfl

theorem findSub_append_self (pat rest : List Char) :
    findSub pat (pat ++ rest) = some 0 := by
  cases hp : pat ++ rest with
  | nil =>
    obtain ⟨h1, h2⟩ := List.append_eq_nil.mp hp
    subst h1
    simp [findSub, List.isPrefixOf]
  | cons c cs =>
    have hpre : pat.isPrefixOf (c :: cs) = true := by
      rw [← hp]
      exact List.isPrefixOf_iff_prefix.mpr (List.prefix_append _ _)
    simp [findSub, hpre]

theorem fm_boundary_notPre (c : Char) (v b : List Char)
    (hp : fmDelim.isPrefixOf (c :: v) = false) :
    fmDelim.isPrefixOf (c :: (v ++ (fmDelim ++ b))) = false := by
  match v with
  | [] =>
    simp [fmDelim, List.isPrefixOf]
  | [d] =>
    simp [fmDelim, List.isPrefixOf]
  | [d, e] =>
    simp [fmDelim, List.isPrefixOf]
  | d :: e :: f :: rest =>
    simp only [fmDelim, List.isPrefixOf, List.cons_append, Bool.and_eq_false_imp] at hp ⊢
    simpa using hp

theorem findSub_boundary (v b : List Char) (hv : findSub fmDelim v = none) :
    findSub fmDelim (v ++ (fmDelim ++ b)) = some v.length := by
  induction v with
  | nil =>
    simpa using findSub_append_self fmDelim b
  | cons c v ih =>
    have h1 : fmDelim.isPrefixOf (c :: v) = false := by
      by_cases h : fmDelim.isPrefixOf (c :: v)
      · simp only [findSub, h, if_true] at hv
        exact absurd hv (by simp)
      · exact Bool.eq_false_iff.mpr h
    have h2 : findSub fmDelim v = none := by
      simp only [findSub, h1, Bool.false_eq_true, if_false] at hv
      exact Option.map_eq_none'.mp hv
    have h3 := fm_boundary_notPre c v b h1
    rw [List.cons_append]
    simp [findSub, h3, ih h2]

theorem splitnChars_step (n : Nat) (pat s : List Char) (i : Nat)
    (h : findSub pat s = some i) :
    splitnChars (n + 2) pat s = s.take i :: splitnChars (n + 1) pat (s.drop (i + pat.length)) := by
  simp [splitnChars, h]

theorem splitnChars_fm (v b : List Char) (hv : findSub fmDelim v = none) :
    splitnChars 3 fmDelim (fmDelim ++ (v ++ (fmDelim ++ b))) = [[], v, b] := by
  have e1 := splitnChars_step 1 fmDelim (fmDelim ++ (v ++ (fmDelim ++ b))) 0
    (findSub_append_self _ _)
  have e2 := splitnChars_step 0 fmDelim (v ++ (fmDelim ++ b)) v.length
    (findSub_boundary v b hv)
  norm_num at e1 e2
  rw [e1, e2]
  rfl

theorem splitn_fm (v b : String) (hv : containsSub v "---\n" = false) :
    splitn 3 "---\n" ("---\n" ++ v ++ ("---\n" ++ b)) = ["", v, b] := by
  have hv' : findSub fmDelim v.data = none := by
    unfold containsSub at hv
    rw [fmDelim_data] at hv
    cases h : findSub fmDelim v.data with
    | none => rfl
    | some i => rw [h] at hv; simp at hv
  have hdata : ("---\n" ++ v ++ ("---\n" ++ b)).data
      = fmDelim ++ (v.data ++ (fmDelim ++ b.data)) := by
    simp [String.data_append, fmDelim, List.append_assoc]
  unfold splitn
  rw [fmDelim_data, hdata, splitnChars_fm v.data b.data hv']
  rfl

theorem strip_suffix_sound {s pat u : String} (h : strip_suffix s pat = some u) :
    u ++ pat = s := by
  unfold strip_suffix at h
  by_cases hew : ends_with s pat
  · rw [if_pos hew] at h
    injection h with h
    have hsuf : pat.data <:+ s.data := by
      unfold ends_with at hew
      exact List.isSuffixOf_iff_suffix.mp hew
    obtain ⟨t, ht⟩ := hsuf
    rw [← ht, List.length_append, Nat.add_sub_cancel, List.take_left] at h
    rw [← h, ← string_mk_data pat, string_mk_append, ht]
  · rw [if_neg hew] at h
    cases h

theorem applyVar_url {p : Post} {l : String} {q : Post}
    (h : applyVar p l = some q) : q.url = p.url := by
  unfold applyVar at h
  cases hs : split_once ':' l with
  | none => rw [hs] at h; cases h
  | some kv =>
    rw [hs] at h
    injection h with h
    subst h
    split_ifs <;> rfl

theorem applyVar_content {p : Post} {l : String} {q : Post}
    (h : applyVar p l = some q) : q.content = p.content := by
  unfold applyVar at h
  cases hs : split_once ':' l with
  | none => rw [hs] at h; cases h
  | some kv =>
    rw [hs] at h
    injection h with h
    subst h
    split_ifs <;> rfl

theorem applyVars_url {ls : List String} : ∀ {p q : Post},
    applyVars p ls = some q → q.url = p.url := by
  induction ls with
  | nil =>
    intro p q h
    injection h with h
    rw [h]
  | cons l rest ih =>
    intro p q h
    simp only [applyVars] at h
    cases ha : applyVar p l with
    | none => rw [ha] at h; cases h
    | some p1 =>
      rw [ha] at h
      exact (ih h).trans (applyVar_url ha)

theorem applyVars_content {ls : List String} : ∀ {p q : Post},
    applyVars p ls = some q → q.content = p.content := by
  induction ls with
  | nil =>
    intro p q h
    injection h with h
    rw [h]
  | cons l rest ih =>
    intro p q h
    simp only [applyVars] at h
    cases ha : applyVar p l with
    | none => rw [ha] at h; cases h
    | some p1 =>
      rw [ha] at h
      exact (ih h).trans (applyVar_content ha)

theorem applyVars_isSome (ls : List String) :
    (∀ l ∈ ls, (split_once ':' l).isSome = true) →
    ∀ p : Post, ∃ q, applyVars p ls = some q := by
  induction ls with
  | nil => exact fun _ p => ⟨p, rfl⟩
  | cons l rest ih =>
    intro hcol p
    obtain ⟨kv, hkv⟩ := Option.isSome_iff_exists.mp (hcol l (List.mem_cons_self _ _))
    have hp1 : applyVar p l
        = some (if kv.1 = "title" then { p with title := rustTrim kv.2 }
                else if kv.1 = "description" then { p with description := rustTrim kv.2 }
                else if kv.1 = "slug" then { p with slug := rustTrim kv.2 }
                else p) := by
      unfold applyVar
      rw [hkv]
    obtain ⟨q, hq⟩ := ih (fun l' hl' => hcol l' (List.mem_cons_of_mem _ hl')) _
    refine ⟨q, ?_⟩
    simp only [applyVars, hp1]
    exact hq

theorem lastValueAux_acc (key : String) (ls : List String) : ∀ acc : Option String,
    lastValueAux key acc ls =
      match lastValue key ls with
      | some w => some w
      | none => acc := by
  induction ls with
  | nil => intro acc; rfl
  | cons l rest ih =>
    intro acc
    show lastValueAux key (lvStep key acc l) rest = _
    rw [ih (lvStep key acc l)]
    have hr : lastValue key (l :: rest) = lastValueAux key (lvStep key none l) rest := rfl
    rw [hr, ih (lvStep key none l)]
    cases hlast : lastValue key rest with
    | some w => rfl
    | none =>
      unfold lvStep
      cases hs : split_once ':' l with
      | none => rfl
      | some kv =>
        by_cases hk : kv.1 = key
        · simp [hk]
        · simp [hk]

theorem applyVars_title {ls : List String} : ∀ {p q : Post},
    applyVars p ls = some q →
    q.title = (lastValue "title" ls).getD p.title := by
  induction ls with
  | nil =>
    intro p q h
    injection h with h
    rw [h]
    rfl
  | cons l rest ih =>
    intro p q h
    simp only [applyVars] at h
    cases ha : applyVar p l with
    | none => rw [ha] at h; cases h
    | some p1 =>
      rw [ha] at h
      have ht := ih h
      have he : lastValue "title" (l :: rest) =
          match lastValue "title" rest with
          | some w => some w
          | none => lvStep "title" none l :=
        lastValueAux_acc "title" rest (lvStep "title" none l)
      have hp1 : p1.title = (lvStep "title" none l).getD p.title := by
        unfold applyVar at ha
        cases hs : split_once ':' l with
        | none => rw [hs] at ha; cases ha
        | some kv =>
          rw [hs] at ha
          injection ha with ha
          rw [← ha]
          unfold lvStep
          rw [hs]
          split_ifs <;> simp_all
      rw [ht, hp1, he]
      cases lastValue "title" rest with
      | some w => rfl
      | none => rfl

theorem applyVars_description {ls : List String} : ∀ {p q : Post},
    applyVars p ls = some q →
    q.description = (lastValue "description" ls).getD p.description := by
  induction ls with
  | nil =>
    intro p q h
    injection h with h
    rw [h]
    rfl
  | cons l rest ih =>
    intro p q h
    simp only [applyVars] at h
    cases ha : applyVar p l with
    | none => rw [ha] at h; cases h
    | some p1 =>
      rw [ha] at h
      have ht := ih h
      have he : lastValue "description" (l :: rest) =
          match lastValue "description" rest with
          | some w => some w
          | none => lvStep "description" none l :=
        lastValueAux_acc "description" rest (lvStep "description" none l)
      have hp1 : p1.description = (lvStep "description" none l).getD p.description := by
        unfold applyVar at ha
        cases hs : split_once ':' l with
        | none => rw [hs] at ha; cases ha
        | some kv =>
          rw [hs] at ha
          injection ha with ha
          rw [← ha]
          unfold lvStep
          rw [hs]
          split_ifs <;> simp_all
      rw [ht, hp1, he]
      cases lastValue "description" rest with
      | some w => rfl
      | none => rfl

theorem applyVars_slug {ls : List String} : ∀ {p q : Post},
    applyVars p ls = some q →
    q.slug = (lastValue "slug" ls).getD p.slug := by
  induction ls with
  | nil =>
    intro p q h
    injection h with h
    rw [h]
    rfl
  | cons l rest ih =>
    intro p q h
    simp only [applyVars] at h
    cases ha : applyVar p l with
    | none => rw [ha] at h; cases h
    | some p1 =>
      rw [ha] at h
      have ht := ih h
      have he : lastValue "slug" (l :: rest) =
          match lastValue "slug" rest with
          | some w => some w
          | none => lvStep "slug" none l :=
        lastValueAux_acc "slug" rest (lvStep "slug" none l)
      have hp1 : p1.slug = (lvStep "slug" none l).getD p.slug := by
        unfold applyVar at ha
        cases hs : split_once ':' l with
        | none => rw [hs] at ha; cases ha
        | some kv =>
          rw [hs] at ha
          injection ha with ha
          rw [← ha]
          unfold lvStep
          rw [hs]
          split_ifs <;> simp_all
      rw [ht, hp1, he]
      cases lastValue "slug" rest with
      | some w => rfl
      | none => rfl

theorem applyVars_append (p : Post) (ls1 ls2 : List String) :
    applyVars p (ls1 ++ ls2) =
      match applyVars p ls1 with
      | none => none
      | some q => applyVars q ls2 := by
  induction ls1 generalizing p with
  | nil => rfl
  | cons l rest ih =>
    show applyVars p (l :: (rest ++ ls2)) = _
    simp only [applyVars]
    cases ha : applyVar p l with
    | none => rfl
    | some p1 => exact ih p1

theorem applyVar_comm (a b : String) (hk : keyOf a ≠ keyOf b) (p : Post) :
    applyVars p [a, b] = applyVars p [b, a] := by
  cases ha : split_once ':' a with
  | none =>
    cases hb : split_once ':' b with
    | none => simp [applyVars, applyVar, ha, hb]
    | some kv2 => simp [applyVars, applyVar, ha, hb]
  | some kv1 =>
    cases hb : split_once ':' b with
    | none => simp [applyVars, applyVar, ha, hb]
    | some kv2 =>
      have hne : kv1.1 ≠ kv2.1 := by
        intro he
        exact hk (by unfold keyOf; rw [ha, hb]; simp [he])
      simp only [applyVars, applyVar, ha, hb]
      split_ifs <;> simp_all

/-- C1: the spec claims that a file whose content begins with `"---\n"` but
holds fewer than two further delimiter occurrences makes the loader return a
`MalformedFrontMatter` error.  The code instead panics: the second
`pop_front().unwrap()` of src/post.rs line 36 runs on an empty deque, so
loading `"---\ntitle: x\n"` aborts the task rather than returning any error
value (no `MalformedFrontMatter` value exists anywhere in the code). -/
theorem c1_missing_second_delimiter_panics :
    Post.from_file md_to_html fsC1 "p.md" = Outcome.panic := by decide

/-- C2: the spec claims that a front-matter line without a colon makes the
loader return a `MalformedFrontMatter` error.  The code instead panics: the
`split_once(":").unwrap()` of src/post.rs line 40 gets `None` on the line
`justcontent`, so loading `"---\njustcontent\n---\nBody"` aborts the task
rather than returning any error value. -/
theorem c2_no_colon_line_panics :
    Post.from_file md_to_html fsC2 "p.md" = Outcome.panic := by decide

/-- C10: for every path not ending in `".md"`, the `strip_suffix` unwrap of
src/post.rs line 24 panics before the file system is touched (the result is
`panic` for every file system), so loading never returns a document or a
structured error. -/
theorem c10_non_md_path_panics (m : String → String)
    (fs : String → Except IOErrorKind String) (path : String)
    (h : ends_with path ".md" = false) :
    Post.from_file m fs path = Outcome.panic := by
  unfold Post.from_file strip_suffix
  rw [h]
  simp

/-- C10 witness: the concrete non-`.md` path `posts/hello.txt` panics even
though the file system would answer every read. -/
theorem c10_witness :
    Post.from_file md_to_html fsC6 "posts/hello.txt" = Outcome.panic :=
  c10_non_md_path_panics md_to_html fsC6 "posts/hello.txt" (by decide)

/-- C4: a file whose content lacks the `"---\n"` prefix is loaded with the
whole buffer as body (handed to the markdown conversion) and with `slug`,
`title` and `description` still the default empty strings. -/
theorem c4_no_frontmatter_all_body (m : String → String)
    (fs : String → Except IOErrorKind String) (path url buf : String)
    (hstrip : strip_suffix path ".md" = some url)
    (hfs : fs path = Except.ok buf)
    (hfm : starts_with buf "---\n" = false) :
    Post.from_file m fs path
      = Outcome.ok { slug := "", url := url, title := "", description := "",
                     content := m buf } := by
  unfold Post.from_file
  rw [hstrip, hfs]
  simp [hfm, Post.new]

/-- C4 witness: the concrete file `"# Hi\nplain body"` (no front matter) at
path `a.md` loads with everything as body and empty metadata fields. -/
theorem c4_witness :
    Post.from_file md_to_html fsC4 "a.md"
      = Outcome.ok { slug := "", url := "a", title := "", description := "",
                     content := md_to_html "# Hi\nplain body" } :=
  c4_no_frontmatter_all_body md_to_html fsC4 "a.md" "a" "# Hi\nplain body"
    (by decide) rfl (by decide)

/-- C5: loading the file `"---\ntitle: Hello\n---\n# Body\n"` yields a
document whose title is `"Hello"` and whose content holds an `<h1>` element
wrapping `Body`. -/
theorem c5_example_title_and_heading :
    ∃ p, Post.from_file md_to_html fsC5 "posts/hello.md" = Outcome.ok p
      ∧ p.title = "Hello"
      ∧ containsSub p.content "<h1>Body</h1>" = true :=
  ⟨⟨"", "posts/hello", "Hello", "", "<h1>Body</h1>\n"⟩, by decide, rfl, by decide⟩

/-- C3: on a missing file (open fails with the `NotFound` I/O error kind,
distinguished from every other kind by the `IOErrorKind` value), the loader
returns `err notFound`, and the end-to-end pipeline — route handler plus
`After(error_handler)` — produces status 404 whose body is the `post.html`
template rendered over `404 Not Found`, which contains that text. -/
theorem c3_notfound_end_to_end (m : String → String)
    (fs : String → Except IOErrorKind String) (path url : String)
    (hstrip : strip_suffix path ".md" = some url)
    (hfs : fs path = Except.error IOErrorKind.notFound) :
    Post.from_file m fs path = Outcome.err IOErrorKind.notFound
    ∧ handle m fs path
        = some { status := 404, error := some IOErrorKind.notFound,
                 body := render_post_html "404 Not Found" }
    ∧ containsSub (render_post_html "404 Not Found") "404 Not Found" = true := by
  have h1 : Post.from_file m fs path = Outcome.err IOErrorKind.notFound := by
    unfold Post.from_file
    rw [hstrip, hfs]
  refine ⟨h1, ?_, by decide⟩
  unfold handle render_markdown
  rw [h1]
  decide

/-- C3 witness: the concrete path `posts/a.md` on the file system where every
open fails with `NotFound`. -/
theorem c3_witness :
    Post.from_file md_to_html fsNF "posts/a.md" = Outcome.err IOErrorKind.notFound
    ∧ handle md_to_html fsNF "posts/a.md"
        = some { status := 404, error := some IOErrorKind.notFound,
                 body := render_post_html "404 Not Found" }
    ∧ containsSub (render_post_html "404 Not Found") "404 Not Found" = true :=
  c3_notfound_end_to_end md_to_html fsNF "posts/a.md" "posts/a" (by decide) rfl

/-- C6: whenever the loader succeeds, the document's `url` is the input path
with the trailing `.md` stripped — equivalently, `url ++ ".md"` restores the
path. -/
theorem c6_url_strips_md_suffix (m : String → String)
    (fs : String → Except IOErrorKind String) (path : String) (p : Post)
    (h : Post.from_file m fs path = Outcome.ok p) :
    p.url ++ ".md" = path := by
  unfold Post.from_file at h
  cases hstrip : strip_suffix path ".md" with
  | none => rw [hstrip] at h; cases h
  | some url =>
    rw [hstrip] at h
    have hurl : p.url = url := by
      cases hfs : fs path with
      | error k => rw [hfs] at h; cases h
      | ok buf =>
        rw [hfs] at h
        simp only at h
        split at h
        · split at h
          · cases h
          · cases h
          · rename_i vars content rest
            split at h
            · cases h
            · rename_i post2 hap
              injection h with h
              rw [← h]
              exact applyVars_url hap
        · injection h with h
          rw [← h]
    rw [hurl]
    exact strip_suffix_sound hstrip

/-- C6 witness: loading `posts/2024/01/01/hello.md` yields the url
`posts/2024/01/01/hello`. -/
theorem c6_witness :
    pC6.url ++ ".md" = "posts/2024/01/01/hello.md"
    ∧ pC6.url = "posts/2024/01/01/hello" :=
  ⟨c6_url_strips_md_suffix md_to_html fsC6 "posts/2024/01/01/hello.md" pC6
    (by decide), rfl⟩

/-- C7: over any list of front-matter lines that each contain a colon, the
loop succeeds and the resulting fields are exactly the trimmed value of the
last line keyed `title` / `description` / `slug` (text before the first
colon, compared exactly; later occurrences overwrite earlier ones), the
field keeping its prior value when no line has that key, and lines with any
other key leaving every field unchanged (`url` and `content` are never
touched by the loop). -/
theorem c7_frontmatter_key_semantics (ls : List String) (p : Post)
    (hcol : ∀ l ∈ ls, (split_once ':' l).isSome = true) :
    ∃ q, applyVars p ls = some q
      ∧ q.title = (lastValue "title" ls).getD p.title
      ∧ q.description = (lastValue "description" ls).getD p.description
      ∧ q.slug = (lastValue "slug" ls).getD p.slug
      ∧ q.url = p.url
      ∧ q.content = p.content := by
  obtain ⟨q, hq⟩ := applyVars_isSome ls hcol p
  exact ⟨q, hq, applyVars_title hq, applyVars_description hq, applyVars_slug hq,
    applyVars_url hq, applyVars_content hq⟩

/-- C7 witness: a block with a repeated `title` key (last write wins, value
trimmed), an unrecognized key (ignored) and a `slug` key. -/
theorem c7_witness :
    ∃ q, applyVars Post.new ["title: a", "other: z", "slug: s", "title:  b "]
        = some q
      ∧ q.title = (lastValue "title"
          ["title: a", "other: z", "slug: s", "title:  b "]).getD Post.new.title
      ∧ q.description = (lastValue "description"
          ["title: a", "other: z", "slug: s", "title:  b "]).getD Post.new.description
      ∧ q.slug = (lastValue "slug"
          ["title: a", "other: z", "slug: s", "title:  b "]).getD Post.new.slug
      ∧ q.url = Post.new.url
      ∧ q.content = Post.new.content :=
  c7_frontmatter_key_semantics ["title: a", "other: z", "slug: s", "title:  b "]
    Post.new (by decide)

/-- C8: the split is bounded at two delimiter boundaries: when the buffer is
`"---\n" ++ vars ++ "---\n" ++ body` with no delimiter inside `vars`, the
loader succeeds and passes the whole remainder `body` — including any further
`"---\n"` occurrences, kept as literal text — to the markdown conversion. -/
theorem c8_third_delimiter_literal (m : String → String)
    (fs : String → Except IOErrorKind String) (path url vars body : String)
    (hstrip : strip_suffix path ".md" = some url)
    (hfs : fs path = Except.ok ("---\n" ++ vars ++ ("---\n" ++ body)))
    (hv : containsSub vars "---\n" = false)
    (hcol : ∀ l ∈ rustLines vars, (split_once ':' l).isSome = true) :
    ∃ p, Post.from_file m fs path = Outcome.ok p ∧ p.content = m body := by
  have hsw : starts_with ("---\n" ++ vars ++ ("---\n" ++ body)) "---\n" = true := by
    unfold starts_with
    refine List.isPrefixOf_iff_prefix.mpr ?_
    rw [String.data_append, String.data_append, List.append_assoc]
    exact List.prefix_append _ _
  have hsplit := splitn_fm vars body hv
  obtain ⟨q, hq⟩ := applyVars_isSome (rustLines vars) hcol
    ⟨"", url, "", "", "---\n" ++ vars ++ ("---\n" ++ body)⟩
  refine ⟨{ q with content := m body }, ?_, rfl⟩
  unfold Post.from_file
  rw [hstrip, hfs]
  simp only [Post.new, hsw, if_true, hsplit, List.drop_succ_cons, List.drop_zero, hq]

/-- C8 witness: the body `"X\n---\nY\n"` keeps its interior delimiter as
literal text handed whole to the markdown conversion. -/
theorem c8_witness :
    ∃ p, Post.from_file md_to_html fsC8 "a.md" = Outcome.ok p
      ∧ p.content = md_to_html "X\n---\nY\n" :=
  c8_third_delimiter_literal md_to_html fsC8 "a.md" "a" "title: t\n" "X\n---\nY\n"
    (by decide) rfl (by decide) (by decide)

/-- C9 (amended): reordering front-matter entries whose keys are pairwise
distinct leaves the parsed result unchanged; the blank-line half of the
original claim fails (see the counterexample), since a blank line is a line
without a colon and aborts the loop. -/
theorem c9_reorder_invariance (ls ls2 : List String) (hperm : ls.Perm ls2)
    (hnd : (ls.map keyOf).Nodup)
    (hcol : ∀ l ∈ ls, (split_once ':' l).isSome = true) (p : Post) :
    applyVars p ls = applyVars p ls2 := by
  induction hperm generalizing p with
  | nil => rfl
  | cons x h ih =>
    simp only [applyVars]
    cases ha : applyVar p x with
    | none => rfl
    | some p1 =>
      refine ih ?_ ?_ p1
      · simp only [List.map_cons, List.nodup_cons] at hnd
        exact hnd.2
      · exact fun l hl => hcol l (List.mem_cons_of_mem _ hl)
  | swap x y t =>
    have hk : keyOf y ≠ keyOf x := by
      simp only [List.map_cons, List.nodup_cons, List.mem_cons] at hnd
      exact fun he => hnd.1 (Or.inl he)
    have e1 : applyVars p (y :: x :: t)
        = match applyVars p [y, x] with
          | none => none
          | some q => applyVars q t := applyVars_append p [y, x] t
    have e2 : applyVars p (x :: y :: t)
        = match applyVars p [x, y] with
          | none => none
          | some q => applyVars q t := applyVars_append p [x, y] t
    rw [e1, e2, applyVar_comm y x hk p]
  | trans h1 h2 ih1 ih2 =>
    refine (ih1 hnd hcol p).trans (ih2 ?_ ?_ p)
    · exact ((h1.map keyOf).nodup_iff).mp hnd
    · exact fun l hl => hcol l (h1.mem_iff.mpr hl)

/-- C9 witness: swapping two entries with the distinct keys `title` and
`slug` parses to the same result. -/
theorem c9_witness :
    applyVars Post.new ["title: A", "slug: s"]
      = applyVars Post.new ["slug: s", "title: A"] :=
  c9_reorder_invariance _ _ (List.Perm.swap "slug: s" "title: A" [])
    (by decide) (by decide) Post.new

/-- C9 counterexample: inserting a blank line between two front-matter
entries is not skipped — the loader panics on it (a blank line has no colon),
whereas the same block without the blank line loads fine, so the parsed
mapping is not preserved. -/
theorem c9_blank_line_not_skipped :
    Post.from_file md_to_html fsC9a "a.md" = Outcome.panic
    ∧ Post.from_file md_to_html fsC9b "a.md"
        = Outcome.ok ⟨"", "a", "A", "B", md_to_html "Body"⟩ :=
  ⟨by decide, by decide⟩
